import Mathlib

/-!
Shallow embedding of the character animation finite-state machine and the
per-tick kinematics of src/world.ts (classes FiniteStateMachine, CharacterFSM,
IdleState, WalkState, RunState, DanceState, BasicCharacterController).

Numbers that are floating point in the source are modelled as rationals.
Calls the source makes into the three.js animation API are modelled on a
record of the fields the source reads and writes (AnimAction), plus a log of
crossFadeFrom calls and the mixer's listener list.  Closure identities
(the dance finished callbacks and the anonymous closure created inside
DanceState._Cleanup) are modelled by natural numbers handed out by an
allocation counter, so that removeEventListener can be compared by reference
the way the JavaScript runtime compares functions.
-/

namespace WorldFSM

/-- The closed state-name enumeration, type STATES in world.ts line 39. -/
inductive STATES where
  | idle
  | walking
  | run
  | dance
  | jump
deriving DecidableEq, Repr

/-- The four concrete State subclasses that CharacterFSM registers
(world.ts lines 186-192).  There is no class for the reserved name jump. -/
inductive StateClass where
  | idleC
  | walkC
  | runC
  | danceC
deriving DecidableEq, Repr

/-- The Name getter of each state class (world.ts lines 200-202, 242-244,
301-303, 363-365). -/
def className : StateClass → STATES
  | .idleC => .idle
  | .walkC => .walking
  | .runC => .run
  | .danceC => .dance

/-- A live state instance: its class plus the identity of the closure the
constructor allocated (DanceState binds this._FinishedCallback at
construction, world.ts lines 357-360; for the other classes the identity is
simply never used). -/
structure StateObj where
  cls : StateClass
  cbId : ℕ
deriving DecidableEq, Repr

/-- The Name getter applied to a live instance. -/
def StateObj.name (s : StateObj) : STATES := className s.cls

/-- The slice of a three.js AnimationAction that world.ts reads or writes:
time, setEffectiveTimeScale, setEffectiveWeight, enabled, setLoop(LoopOnce),
clampWhenFinished, play, and getClip().duration (immutable). -/
structure AnimAction where
  time : ℚ
  effectiveTimeScale : ℚ
  effectiveWeight : ℚ
  enabled : Bool
  loopOnce : Bool
  clampWhenFinished : Bool
  running : Bool
  clipDuration : ℚ
deriving DecidableEq, Repr

/-- One call to AnimationAction.crossFadeFrom made by a state's Enter:
the incoming action's state name, the outgoing action's state name, and the
duration argument. -/
structure CrossFadeCall where
  dst : STATES
  src : STATES
  duration : ℚ
deriving DecidableEq, Repr

/-- The FiniteStateMachine (world.ts lines 141-178) together with the parts
of its environment the states touch: the animation registry (_proxy),
the mixer's finished-listener array, the closure allocator, and the log of
crossFadeFrom calls. -/
structure Machine where
  states : STATES → Option StateClass
  currentState : Option StateObj
  anims : STATES → AnimAction
  listeners : List ℕ
  nextId : ℕ
  crossFades : List CrossFadeCall

/-- Overwrite one entry of the animation registry. -/
def Machine.setAnim (m : Machine) (n : STATES) (a : AnimAction) : Machine :=
  { m with anims := fun k => if k = n then a else m.anims k }

/-- AnimationAction.play on the action registered under n. -/
def Machine.playAction (m : Machine) (n : STATES) : Machine :=
  m.setAnim n { m.anims n with running := true }

/-- Append a crossFadeFrom call to the log. -/
def Machine.logFade (m : Machine) (c : CrossFadeCall) : Machine :=
  { m with crossFades := m.crossFades ++ [c] }

/-- The hook invocations SetState performs: exit of the outgoing instance,
enter of the incoming instance carrying the previous instance argument. -/
inductive HookEvent where
  | exit (s : StateObj)
  | enter (s : StateObj) (prev : Option StateObj)
deriving DecidableEq, Repr

/-- Result of one SetState call: the machine afterwards, the hook calls it
made, and whether the call raised (a TypeError in the source). -/
structure StepResult where
  machine : Machine
  events : List HookEvent
  error : Bool

/-- IdleState.Enter (world.ts lines 204-222).  With a previous state it sets
time to 0, enabled, effective time scale and weight to 1, cross-fades from the
previous action over 0.5 and plays; with none it just plays. -/
def IdleState.Enter (m : Machine) (prev : Option StateObj) : Machine × Bool :=
  match prev with
  | none => (m.playAction .idle, false)
  | some p =>
      let idleAction := m.anims .idle
      let idleAction := { idleAction with
        time := 0, enabled := true, effectiveTimeScale := 1, effectiveWeight := 1 }
      let m := m.setAnim .idle idleAction
      let m := m.logFade ⟨.idle, p.name, 1/2⟩
      (m.playAction .idle, false)

/-- WalkState.Enter (world.ts lines 304-330).  Coming from run it rescales
the incoming time by the clip-duration quotient; otherwise it resets time to 0
and scale and weight to 1.  Either way it cross-fades over 0.5 and plays. -/
def WalkState.Enter (m : Machine) (prev : Option StateObj) : Machine × Bool :=
  match prev with
  | none => (m.playAction .walking, false)
  | some p =>
      let curAction := m.anims .walking
      let prevAction := m.anims p.name
      let curAction := { curAction with enabled := true }
      let curAction :=
        if p.name = .run then
          { curAction with
            time := prevAction.time * (curAction.clipDuration / prevAction.clipDuration) }
        else
          { curAction with time := 0, effectiveTimeScale := 1, effectiveWeight := 1 }
      let m := m.setAnim .walking curAction
      let m := m.logFade ⟨.walking, p.name, 1/2⟩
      (m.playAction .walking, false)

/-- RunState.Enter (world.ts lines 246-275).  Note line 249 reads
prevState.Name before the null check, so a call with no previous state raises
a TypeError before any effect; the branch that would plainly play is dead
(the source comments it with doesnt enter).  Coming from walking it rescales
the incoming time; otherwise it resets time, scale and weight.  Either way it
cross-fades over 0.2 and plays. -/
def RunState.Enter (m : Machine) (prev : Option StateObj) : Machine × Bool :=
  match prev with
  | none => (m, true)
  | some p =>
      let curAction := m.anims .run
      let prevAction := m.anims p.name
      let curAction := { curAction with enabled := true }
      let curAction :=
        if p.name = .walking then
          { curAction with
            time := prevAction.time * (curAction.clipDuration / prevAction.clipDuration) }
        else
          { curAction with time := 0, effectiveTimeScale := 1, effectiveWeight := 1 }
      let m := m.setAnim .run curAction
      let m := m.logFade ⟨.run, p.name, 1/5⟩
      (m.playAction .run, false)

/-- DanceState.Enter (world.ts lines 367-387).  It first registers the
instance's _FinishedCallback on the mixer (three.js addEventListener pushes
the closure only when it is not already present).  With a previous state it
calls reset() on the dance action -- per three.js AnimationAction.reset this
sets time to 0 and enabled to true and stops fading and warping, and does not
touch the effective weight or effective time scale -- then setLoop(LoopOnce),
clampWhenFinished, cross-fade over 0.2, play. -/
def DanceState.Enter (self : StateObj) (m : Machine) (prev : Option StateObj) :
    Machine × Bool :=
  let m :=
    if self.cbId ∈ m.listeners then m
    else { m with listeners := m.listeners ++ [self.cbId] }
  match prev with
  | none => (m.playAction .dance, false)
  | some p =>
      let curAction := m.anims .dance
      let curAction := { curAction with time := 0, enabled := true }
      let curAction := { curAction with loopOnce := true, clampWhenFinished := true }
      let m := m.setAnim .dance curAction
      let m := m.logFade ⟨.dance, p.name, 1/5⟩
      (m.playAction .dance, false)

/-- Dispatch of Enter over the concrete state classes. -/
def State.Enter (cls : StateClass) (self : StateObj) (m : Machine)
    (prev : Option StateObj) : Machine × Bool :=
  match cls with
  | .idleC => IdleState.Enter m prev
  | .walkC => WalkState.Enter m prev
  | .runC => RunState.Enter m prev
  | .danceC => DanceState.Enter self m prev

/-- DanceState._Cleanup (world.ts lines 394-403): it calls removeEventListener
with a freshly created anonymous closure (line 402), not with the
_FinishedCallback that was registered.  The fresh closure gets a new identity
from the allocator, so the erase never matches an element of the listener
array. -/
def DanceState.Cleanup (m : Machine) : Machine :=
  { m with listeners := m.listeners.erase m.nextId, nextId := m.nextId + 1 }

/-- Exit dispatch: IdleState.Exit and WalkState.Exit are empty, RunState.Exit
only reads the current action, DanceState.Exit calls _Cleanup
(world.ts lines 232-234, 289-293, 343-349, 404-406). -/
def State.Exit (cls : StateClass) (m : Machine) : Machine :=
  match cls with
  | .danceC => DanceState.Cleanup m
  | _ => m

/-- FiniteStateMachine.SetState (world.ts lines 154-171).  With an active
state of the same name it returns immediately; otherwise it calls the active
state's Exit, looks the requested name up in _states (an unregistered name
makes new currentState(this) raise a TypeError after the Exit already ran),
constructs the fresh instance, assigns currentState, and calls Enter with the
previous instance. -/
def FiniteStateMachine.SetState (m : Machine) (nameState : STATES) : StepResult :=
  match m.currentState with
  | some prevState =>
      if prevState.name = nameState then
        { machine := m, events := [], error := false }
      else
        let m1 := State.Exit prevState.cls m
        match m1.states nameState with
        | none => { machine := m1, events := [.exit prevState], error := true }
        | some c =>
            let st : StateObj := ⟨c, m1.nextId⟩
            let m2 := { m1 with nextId := m1.nextId + 1, currentState := some st }
            let r := State.Enter c st m2 (some prevState)
            { machine := r.1,
              events := [.exit prevState, .enter st (some prevState)],
              error := r.2 }
  | none =>
      match m.states nameState with
      | none => { machine := m, events := [], error := true }
      | some c =>
          let st : StateObj := ⟨c, m.nextId⟩
          let m2 := { m with nextId := m.nextId + 1, currentState := some st }
          let r := State.Enter c st m2 none
          { machine := r.1, events := [.enter st none], error := r.2 }

/-- The registry CharacterFSM builds in its constructor
(world.ts lines 186-192); jump is never registered. -/
def CharacterFSM.registry : STATES → Option StateClass
  | .idle => some .idleC
  | .walking => some .walkC
  | .run => some .runC
  | .dance => some .danceC
  | .jump => none

/-- A freshly constructed CharacterFSM with a given animation registry:
no current state, no listeners, empty log. -/
def initialMachine (anims0 : STATES → AnimAction) : Machine :=
  { states := CharacterFSM.registry, currentState := none, anims := anims0,
    listeners := [], nextId := 0, crossFades := [] }

/-- DanceState._Finished (world.ts lines 388-393): cleanup, then force the
machine into idle. -/
def DanceState.Finished (m : Machine) : Machine :=
  (FiniteStateMachine.SetState (DanceState.Cleanup m) .idle).machine

/-- The mixer dispatching its finished event: three.js EventDispatcher
iterates over a copy of the listener array, and every listener registered by a
DanceState instance runs that instance's _Finished. -/
def fireFinished (m : Machine) : Machine :=
  m.listeners.foldl (fun acc _ => DanceState.Finished acc) m

/-- Key snapshot of ControllerInput (world.ts lines 78-85). -/
structure Keys where
  forward : Bool
  backward : Bool
  left : Bool
  right : Bool
  space : Bool
  shift : Bool
deriving DecidableEq, Repr

/-- FiniteStateMachine.Update (world.ts lines 173-177) forwards to the active
state's Update; no active state is a no-op.  The per-state Update methods
(world.ts lines 223-231, 277-288, 331-342, 407) request transitions from the
input; elapsed time is unused by all of them. -/
def FiniteStateMachine.Update (m : Machine) (_timeElapsed : ℚ) (input : Keys) :
    Machine :=
  match m.currentState with
  | none => m
  | some p =>
      match p.cls with
      | .idleC =>
          if input.forward || input.backward then
            (FiniteStateMachine.SetState m .walking).machine
          else if input.space then
            (FiniteStateMachine.SetState m .dance).machine
          else m
      | .walkC =>
          if input.forward || input.backward then
            (if input.shift then (FiniteStateMachine.SetState m .run).machine else m)
          else (FiniteStateMachine.SetState m .idle).machine
      | .runC =>
          if input.forward || input.backward then
            (if input.shift then m else (FiniteStateMachine.SetState m .walking).machine)
          else (FiniteStateMachine.SetState m .idle).machine
      | .danceC => m

/-- A three-component vector of rationals standing in for THREE.Vector3. -/
structure Vec3 where
  x : ℚ
  y : ℚ
  z : ℚ
deriving DecidableEq, Repr

/-- this._decceleration (world.ts line 429): (-0.0005, -0.0001, -5.0). -/
def decceleration : Vec3 := ⟨-(1/2000), -(1/10000), -5⟩

/-- this._acceleration (world.ts line 430): (1, 0.25, 25.0). -/
def acceleration : Vec3 := ⟨1, 1/4, 25⟩

/-- JavaScript Math.sign restricted to the rationals. -/
def jsSign (q : ℚ) : ℚ := if 0 < q then 1 else if q < 0 then -1 else 0

/-- The frame deceleration of BasicCharacterController.tick (world.ts lines
499-507): the component-wise product of velocity, the deceleration constants
and the elapsed time, with the z component then replaced by
sign(z) * min(abs z, abs velocity.z). -/
def frameDecceleration (velocity : Vec3) (dt : ℚ) : Vec3 :=
  let fd : Vec3 := ⟨velocity.x * decceleration.x * dt,
                    velocity.y * decceleration.y * dt,
                    velocity.z * decceleration.z * dt⟩
  { fd with z := jsSign fd.z * min |fd.z| |velocity.z| }

/-- The effective acceleration of the tick (world.ts lines 516-526): clone the
base acceleration, double it while shift is held, zero it while the active
state is named dance. -/
def effectiveAcceleration (input : Keys) (activeName : Option STATES) : Vec3 :=
  let acc := acceleration
  let acc := if input.shift then ⟨acc.x * 2, acc.y * 2, acc.z * 2⟩ else acc
  if activeName = some .dance then ⟨acc.x * 0, acc.y * 0, acc.z * 0⟩ else acc

/-- The name of the machine's active state, as the tick queries it. -/
def activeStateName (m : Machine) : Option STATES :=
  m.currentState.map StateObj.name

/-- Outcome of one controller tick: the machine after the FSM update, the new
velocity, and the yaw rotations applied (as multiples of pi, one entry per
held turn key, left then right). -/
structure TickResult where
  machine : Machine
  velocity : Vec3
  yaw : List ℚ

/-- BasicCharacterController.tick (world.ts lines 491-575) restricted to the
state it threads through the FSM and the kinematics: drive the FSM update,
add the clamped frame deceleration to the velocity, add or subtract the
effective forward acceleration times dt while forward or backward is held, and
rotate by 4 pi dt acceleration.y per held turn key (the yaw list holds the
multiples of pi; position integration and the mixer advance are not
represented; the early return when the target model has not loaded is outside
this function). -/
def tick (m : Machine) (input : Keys) (velocity : Vec3) (dt : ℚ) : TickResult :=
  let m := FiniteStateMachine.Update m dt input
  let fd := frameDecceleration velocity dt
  let velocity : Vec3 := ⟨velocity.x + fd.x, velocity.y + fd.y, velocity.z + fd.z⟩
  let acc := effectiveAcceleration input (activeStateName m)
  let velocity :=
    if input.forward then { velocity with z := velocity.z + acc.z * dt } else velocity
  let velocity :=
    if input.backward then { velocity with z := velocity.z - acc.z * dt } else velocity
  let yaw := (if input.left then [4 * dt * acceleration.y] else [])
      ++ (if input.right then [4 * (-1) * dt * acceleration.y] else [])
  { machine := m, velocity := velocity, yaw := yaw }

/-- Run a whole sequence of SetState calls, concatenating the hook events;
an erroring call leaves its partial effects in place and the sequence
continues, the way later frames keep running after an uncaught exception. -/
def runCalls (m : Machine) (names : List STATES) : Machine × List HookEvent :=
  match names with
  | [] => (m, [])
  | n :: rest =>
      let r := FiniteStateMachine.SetState m n
      let p := runCalls r.machine rest
      (p.1, r.events ++ p.2)

/-- Net number of states entered and not yet exited in a hook-event trace. -/
def hookDelta : HookEvent → ℤ
  | .enter _ _ => 1
  | .exit _ => -1

/-- Sum of the hook deltas of a trace. -/
def netActive (evs : List HookEvent) : ℤ := (evs.map hookDelta).sum

/-- 1 when the machine holds an active state, 0 otherwise. -/
def startLevel (m : Machine) : ℤ := if m.currentState.isSome then 1 else 0

/-- The cross-fade duration each state class's Enter passes to crossFadeFrom
when there is a previous state: 0.5 into idle and walking, 0.2 into run and
dance (world.ts lines 220, 325, 268, 382). -/
def fadeDuration : StateClass → ℚ
  | .idleC => 1/2
  | .walkC => 1/2
  | .runC => 1/5
  | .danceC => 1/5

/-- A sample action used to build concrete machines. -/
def sampleAction : AnimAction :=
  { time := 3, effectiveTimeScale := 1, effectiveWeight := 1, enabled := false,
    loopOnce := false, clampWhenFinished := false, running := false,
    clipDuration := 2 }

/-- A sample registry giving walking and run clips different lengths. -/
def sampleAnims : STATES → AnimAction
  | .walking => { sampleAction with time := 3, clipDuration := 2 }
  | .run => { sampleAction with time := 7, clipDuration := 4 }
  | _ => sampleAction

/-- A machine whose active state is a WalkState instance. -/
def walkActiveMachine : Machine :=
  { states := CharacterFSM.registry, currentState := some ⟨.walkC, 0⟩,
    anims := sampleAnims, listeners := [], nextId := 1, crossFades := [] }

/-- A machine whose active state is a RunState instance. -/
def runActiveMachine : Machine :=
  { states := CharacterFSM.registry, currentState := some ⟨.runC, 0⟩,
    anims := sampleAnims, listeners := [], nextId := 1, crossFades := [] }

/-- A machine whose active state is a DanceState instance whose callback is
registered on the mixer. -/
def danceActiveMachine : Machine :=
  { states := CharacterFSM.registry, currentState := some ⟨.danceC, 0⟩,
    anims := sampleAnims, listeners := [0], nextId := 1, crossFades := [] }

/-- A machine in idle whose dance action carries an effective time scale of 2,
as a warp of that action can leave behind. -/
def idleDanceScaledMachine : Machine :=
  { states := CharacterFSM.registry, currentState := some ⟨.idleC, 0⟩,
    anims := fun s => if s = .dance then { sampleAction with effectiveTimeScale := 2 }
      else sampleAction,
    listeners := [], nextId := 1, crossFades := [] }

/-- The machine right after load completion drove the first transition into
idle (world.ts lines 455-458). -/
def loadedMachine : Machine :=
  (FiniteStateMachine.SetState (initialMachine sampleAnims) .idle).machine

/-- One complete dance activation: enter dance, then the clip finishes and the
mixer dispatches its finished event to every registered listener. -/
def danceCycle (m : Machine) : Machine :=
  fireFinished (FiniteStateMachine.SetState m .dance).machine

/-- Exit hooks never touch the registration table. -/
theorem State.Exit_states (c : StateClass) (m : Machine) :
    (State.Exit c m).states = m.states := by
  cases c <;> rfl

/-- Exit hooks never touch the current-state field. -/
theorem State.Exit_currentState (c : StateClass) (m : Machine) :
    (State.Exit c m).currentState = m.currentState := by
  cases c <;> rfl

/-- Exit hooks never touch the animation registry. -/
theorem State.Exit_anims (c : StateClass) (m : Machine) :
    (State.Exit c m).anims = m.anims := by
  cases c <;> rfl

/-- Exit hooks never touch the cross-fade log. -/
theorem State.Exit_crossFades (c : StateClass) (m : Machine) :
    (State.Exit c m).crossFades = m.crossFades := by
  cases c <;> rfl

/-- Enter hooks never touch the current-state field. -/
theorem State.Enter_currentState (c : StateClass) (s : StateObj) (m : Machine)
    (prev : Option StateObj) :
    ((State.Enter c s m prev).1).currentState = m.currentState := by
  cases c <;> cases prev <;>
    simp only [State.Enter, IdleState.Enter, WalkState.Enter, RunState.Enter,
      DanceState.Enter, Machine.setAnim, Machine.playAction, Machine.logFade] <;>
    (repeat' split) <;> rfl

/-- Claim C2: requesting the already-active state's name is a no-op: the
machine (actions, blend parameters, listeners, log) is unchanged, no exit or
enter hook runs, and no error is raised (world.ts lines 157-161). -/
theorem setState_self_noop (m : Machine) (p : StateObj)
    (hcur : m.currentState = some p) :
    (FiniteStateMachine.SetState m p.name).machine = m ∧
    (FiniteStateMachine.SetState m p.name).events = [] ∧
    (FiniteStateMachine.SetState m p.name).error = false := by
  simp [FiniteStateMachine.SetState, hcur]

/-- Witness for setState_self_noop at a concrete dancing machine. -/
theorem setState_self_noop_witness :
    (FiniteStateMachine.SetState danceActiveMachine .dance).machine =
      danceActiveMachine ∧
    (FiniteStateMachine.SetState danceActiveMachine .dance).events = [] ∧
    (FiniteStateMachine.SetState danceActiveMachine .dance).error = false :=
  setState_self_noop danceActiveMachine ⟨.danceC, 0⟩ rfl

/-- Claim C3: the walking-to-run and run-to-walking transitions set the
incoming action's time to the outgoing action's time multiplied by the
quotient incoming clip duration over outgoing clip duration
(world.ts lines 258-261 and 315-318). -/
theorem walkRun_phase_preserved (m : Machine) (p : StateObj)
    (hcur : m.currentState = some p)
    (hwd : 0 < (m.anims .walking).clipDuration)
    (hrd : 0 < (m.anims .run).clipDuration) :
    (p.cls = .walkC → m.states .run = some .runC →
      ((FiniteStateMachine.SetState m .run).machine.anims .run).time =
        (m.anims STATES.walking).time *
          ((m.anims STATES.run).clipDuration / (m.anims STATES.walking).clipDuration)) ∧
    (p.cls = .runC → m.states .walking = some .walkC →
      ((FiniteStateMachine.SetState m .walking).machine.anims .walking).time =
        (m.anims STATES.run).time *
          ((m.anims STATES.walking).clipDuration / (m.anims STATES.run).clipDuration)) := by
  constructor
  · intro hcls hreg
    have hname : p.name = .walking := by simp [StateObj.name, hcls, className]
    simp [FiniteStateMachine.SetState, hcur, hname, hcls, State.Exit, hreg,
      State.Enter, RunState.Enter, Machine.setAnim, Machine.playAction,
      Machine.logFade]
  · intro hcls hreg
    have hname : p.name = .run := by simp [StateObj.name, hcls, className]
    simp [FiniteStateMachine.SetState, hcur, hname, hcls, State.Exit, hreg,
      State.Enter, WalkState.Enter, Machine.setAnim, Machine.playAction,
      Machine.logFade]

/-- Witness for walkRun_phase_preserved: the walking clip lasts 2 at time 3,
the run clip lasts 4, so entering run starts the run action at 3 * (4 / 2). -/
theorem walkRun_phase_preserved_witness :
    (0 : ℚ) < 2 ∧
    ((FiniteStateMachine.SetState walkActiveMachine .run).machine.anims .run).time =
      3 * ((4 : ℚ) / 2) := by
  refine ⟨by norm_num, ?_⟩
  have h := (walkRun_phase_preserved walkActiveMachine ⟨.walkC, 0⟩ rfl
    (by norm_num [walkActiveMachine, sampleAnims, sampleAction])
    (by norm_num [walkActiveMachine, sampleAnims, sampleAction])).1 rfl rfl
  simpa [walkActiveMachine, sampleAnims, sampleAction] using h

/-- Claim C9: requesting a name with no registered constructor, such as the
reserved name jump, raises (new undefined is a TypeError, world.ts lines
165-167) instead of silently doing nothing. -/
theorem setState_unregistered_errors (m : Machine)
    (hreg : m.states = CharacterFSM.registry) :
    (FiniteStateMachine.SetState m .jump).error = true := by
  rcases hc : m.currentState with _ | p
  · simp [FiniteStateMachine.SetState, hc, hreg, CharacterFSM.registry]
  · have hname : p.name ≠ .jump := by
      cases h : p.cls <;> simp [StateObj.name, h, className]
    simp [FiniteStateMachine.SetState, hc, hname, State.Exit_states, hreg,
      CharacterFSM.registry]

/-- Witness for setState_unregistered_errors at a concrete machine. -/
theorem setState_unregistered_errors_witness :
    (FiniteStateMachine.SetState danceActiveMachine .jump).error = true :=
  setState_unregistered_errors danceActiveMachine rfl

/-- Counterexample to claim C4 as stated: from the concrete running machine,
the run-to-walking transition logs a cross-fade of duration 0.5, not the
claimed 0.2, because WalkState.Enter passes 0.5 unconditionally
(world.ts line 325). -/
theorem runToWalk_fades_half :
    (FiniteStateMachine.SetState runActiveMachine .walking).machine.crossFades =
      [⟨.walking, .run, 1/2⟩] ∧ ((1 : ℚ)/2 ≠ 1/5) :=
  ⟨rfl, by norm_num⟩

/-- Claim C4 amended: for every transition with a previous state, the
cross-fade duration depends only on the incoming state: 0.5 entering idle or
walking (so run-to-walking blends over 0.5, not 0.2), 0.2 entering run or
dance. -/
theorem crossFade_duration_by_incoming (m : Machine) (p : StateObj) (n : STATES)
    (c : StateClass) (hcur : m.currentState = some p) (hne : p.name ≠ n)
    (hreg : m.states n = some c) :
    (FiniteStateMachine.SetState m n).machine.crossFades =
      m.crossFades ++ [⟨className c, p.name, fadeDuration c⟩] := by
  cases c <;>
    simp [FiniteStateMachine.SetState, hcur, hne, State.Exit_states, hreg,
      State.Exit_crossFades, State.Enter, IdleState.Enter, WalkState.Enter,
      RunState.Enter, DanceState.Enter, Machine.setAnim, Machine.playAction,
      Machine.logFade, className, fadeDuration] <;>
    (repeat' split) <;>
    simp [State.Exit_crossFades]

/-- Witness for crossFade_duration_by_incoming: walking to run blends over
0.2. -/
theorem crossFade_duration_by_incoming_witness :
    (FiniteStateMachine.SetState walkActiveMachine .run).machine.crossFades =
      walkActiveMachine.crossFades ++ [⟨.run, .walking, 1/5⟩] :=
  crossFade_duration_by_incoming walkActiveMachine ⟨.walkC, 0⟩ .run .runC rfl
    (by decide) rfl

/-- Counterexample to claim C5 as stated: entering dance from idle on the
concrete machine whose dance action carries effective time scale 2 leaves the
scale at 2, because DanceState.Enter only calls reset(), which does not touch
the effective weight or time scale (world.ts lines 376-383). -/
theorem danceEnter_keeps_timeScale :
    ((FiniteStateMachine.SetState idleDanceScaledMachine .dance).machine.anims
        .dance).effectiveTimeScale = 2 ∧ (2 : ℚ) ≠ 1 :=
  ⟨rfl, by norm_num⟩

/-- Claim C5 amended: transitions with a previous state entering idle,
entering walking from anything but run, or entering run from anything but
walking set the incoming action's time to 0 and its effective weight and time
scale to 1 (and enable and play it); transitions entering dance reset the
incoming action's time to 0 (and enable it, make it one-shot and clamped, and
play it) but leave its effective weight and effective time scale unchanged. -/
theorem enter_resets_blend_parameters (m : Machine) (p : StateObj) (n : STATES)
    (c : StateClass) (hcur : m.currentState = some p) (hne : p.name ≠ n)
    (hreg : m.states n = some c) :
    (c = .idleC →
      (FiniteStateMachine.SetState m n).machine.anims .idle =
        { m.anims .idle with
          time := 0, enabled := true, effectiveTimeScale := 1,
          effectiveWeight := 1, running := true }) ∧
    (c = .walkC → p.name ≠ .run →
      (FiniteStateMachine.SetState m n).machine.anims .walking =
        { m.anims .walking with
          time := 0, enabled := true,
          effectiveTimeScale := 1, effectiveWeight := 1, running := true }) ∧
    (c = .runC → p.name ≠ .walking →
      (FiniteStateMachine.SetState m n).machine.anims .run =
        { m.anims .run with
          time := 0, enabled := true, effectiveTimeScale := 1,
          effectiveWeight := 1, running := true }) ∧
    (c = .danceC →
      (FiniteStateMachine.SetState m n).machine.anims .dance =
        { m.anims .dance with
          time := 0, enabled := true, loopOnce := true,
          clampWhenFinished := true, running := true }) := by
  refine ⟨?_, ?_, ?_, ?_⟩
  · rintro rfl
    simp [FiniteStateMachine.SetState, hcur, hne, State.Exit_states, hreg,
      State.Exit_anims, State.Enter, IdleState.Enter, Machine.setAnim,
      Machine.playAction, Machine.logFade]
  · rintro rfl hpr
    simp [FiniteStateMachine.SetState, hcur, hne, State.Exit_states, hreg,
      State.Exit_anims, State.Enter, WalkState.Enter, Machine.setAnim,
      Machine.playAction, Machine.logFade, hpr]
  · rintro rfl hpw
    simp [FiniteStateMachine.SetState, hcur, hne, State.Exit_states, hreg,
      State.Exit_anims, State.Enter, RunState.Enter, Machine.setAnim,
      Machine.playAction, Machine.logFade, hpw]
  · rintro rfl
    simp [FiniteStateMachine.SetState, hcur, hne, State.Exit_states, hreg,
      State.Exit_anims, State.Enter, DanceState.Enter, Machine.setAnim,
      Machine.playAction, Machine.logFade] <;>
    (repeat' split) <;>
    simp [State.Exit_anims]

/-- Witness for enter_resets_blend_parameters: entering idle from walking. -/
theorem enter_resets_blend_parameters_witness :
    (FiniteStateMachine.SetState walkActiveMachine .idle).machine.anims .idle =
      { walkActiveMachine.anims .idle with
        time := 0, enabled := true,
        effectiveTimeScale := 1, effectiveWeight := 1, running := true } :=
  (enter_resets_blend_parameters walkActiveMachine ⟨.walkC, 0⟩ .idle .idleC rfl
    (by decide) rfl).1 rfl

/-- Claim C6 is violated by the code: after one completed dance activation the
finished listener is still registered on the mixer, after two activations two
listeners are registered, and an interrupting exit also leaves the listener
behind, because _Cleanup hands removeEventListener a freshly created anonymous
closure instead of the registered _FinishedCallback (world.ts lines 399-402),
so the removal never matches and the listener count grows by one per
activation. -/
theorem dance_listener_leak :
    (danceCycle loadedMachine).listeners.length = 1 ∧
    (danceCycle (danceCycle loadedMachine)).listeners.length = 2 ∧
    ((FiniteStateMachine.SetState
        (FiniteStateMachine.SetState loadedMachine .dance).machine
        .idle).machine).listeners.length = 1 :=
  ⟨rfl, rfl, rfl⟩

/-- Claim C7: during a tick whose active state is named dance, any combination
of movement keys (forward, backward, with or without shift) produces the same
velocity as the tick with none of them held, because the effective
acceleration is zeroed (world.ts lines 521-526). -/
theorem dance_zeroes_movement (m : Machine) (input : Keys) (v : Vec3) (dt : ℚ)
    (h : activeStateName m = some .dance) :
    (tick m input v dt).velocity =
      (tick m { input with forward := false, backward := false, shift := false }
        v dt).velocity := by
  obtain ⟨p, hp⟩ : ∃ p, m.currentState = some p := by
    rcases hm : m.currentState with _ | p
    · simp [activeStateName, hm] at h
    · exact ⟨p, rfl⟩
  have hnm : p.name = .dance := by simpa [activeStateName, hp] using h
  have hcls : p.cls = .danceC := by
    cases hc : p.cls <;> simp [StateObj.name, hc, className] at hnm ⊢
  have hup : ∀ ks, FiniteStateMachine.Update m dt ks = m := by
    intro ks
    simp [FiniteStateMachine.Update, hp, hcls]
  rcases v with ⟨vx, vy, vz⟩
  simp [tick, hup, h, effectiveAcceleration, mul_zero, zero_mul]

/-- Witness for dance_zeroes_movement: all movement keys held while dancing
give the same velocity as none. -/
theorem dance_zeroes_movement_witness :
    (tick danceActiveMachine ⟨true, true, true, false, false, true⟩
        ⟨1, 2, 3⟩ (1/10)).velocity =
      (tick danceActiveMachine ⟨false, false, true, false, false, false⟩
        ⟨1, 2, 3⟩ (1/10)).velocity :=
  dance_zeroes_movement danceActiveMachine ⟨true, true, true, false, false, true⟩
    ⟨1, 2, 3⟩ (1/10) rfl

/-- Claim C8: the frame deceleration is the component-wise product of the
velocity, the deceleration constants and the elapsed time, except that the
magnitude of its z component is clamped by the magnitude of the current
forward velocity, so adding it cannot carry the forward velocity past zero
(world.ts lines 499-509). -/
theorem frameDecel_clamped (v : Vec3) (dt : ℚ) (hdt : 0 ≤ dt) :
    (frameDecceleration v dt).x = v.x * decceleration.x * dt ∧
    (frameDecceleration v dt).y = v.y * decceleration.y * dt ∧
    (frameDecceleration v dt).z =
      jsSign (v.z * decceleration.z * dt) *
        min |v.z * decceleration.z * dt| |v.z| ∧
    |(frameDecceleration v dt).z| ≤ |v.z| ∧
    |(frameDecceleration v dt).z| ≤ |v.z * decceleration.z * dt| ∧
    (0 ≤ v.z → 0 ≤ v.z + (frameDecceleration v dt).z) ∧
    (v.z ≤ 0 → v.z + (frameDecceleration v dt).z ≤ 0) := by
  have h3 : (frameDecceleration v dt).z =
      jsSign (v.z * decceleration.z * dt) *
        min |v.z * decceleration.z * dt| |v.z| := rfl
  have hmin0 : (0 : ℚ) ≤ min |v.z * decceleration.z * dt| |v.z| :=
    le_min (abs_nonneg _) (abs_nonneg _)
  have hsign : |jsSign (v.z * decceleration.z * dt)| ≤ 1 := by
    unfold jsSign
    split
    · norm_num
    · split
      · norm_num
      · norm_num
  have habs : |(frameDecceleration v dt).z| ≤
      min |v.z * decceleration.z * dt| |v.z| := by
    rw [h3, abs_mul, abs_of_nonneg hmin0]
    calc |jsSign (v.z * decceleration.z * dt)| *
          min |v.z * decceleration.z * dt| |v.z|
        ≤ 1 * min |v.z * decceleration.z * dt| |v.z| :=
          mul_le_mul_of_nonneg_right hsign hmin0
      _ = min |v.z * decceleration.z * dt| |v.z| := one_mul _
  have hle : |(frameDecceleration v dt).z| ≤ |v.z| :=
    habs.trans (min_le_right _ _)
  refine ⟨rfl, rfl, h3, hle, habs.trans (min_le_left _ _), ?_, ?_⟩
  · intro hz
    have h1 : -|(frameDecceleration v dt).z| ≤ (frameDecceleration v dt).z :=
      neg_abs_le _
    have h2 : |v.z| = v.z := abs_of_nonneg hz
    linarith
  · intro hz
    have h1 : (frameDecceleration v dt).z ≤ |(frameDecceleration v dt).z| :=
      le_abs_self _
    have h2 : |v.z| = -v.z := abs_of_nonpos hz
    linarith

/-- Witness for frameDecel_clamped at velocity (1, 2, 3) and elapsed time
0.1: the forward velocity plus the frame deceleration stays nonnegative. -/
theorem frameDecel_clamped_witness :
    (0 : ℚ) ≤ 1/10 ∧ (0 : ℚ) ≤ 3 ∧
    (0 : ℚ) ≤ 3 + (frameDecceleration ⟨1, 2, 3⟩ (1/10)).z := by
  have h := frameDecel_clamped ⟨1, 2, 3⟩ (1/10) (by norm_num)
  exact ⟨by norm_num, by norm_num, h.2.2.2.2.2.1 (by norm_num)⟩

/-- Claim C10: the yaw rotation per held turn key is 4 pi dt times the base
acceleration's y component 0.25 (the yaw list holds the multiples of pi),
read from this._acceleration directly (world.ts lines 534-549), so it is
unchanged by shift and by the active state; only the effective acceleration's
forward component is doubled by shift or zeroed by dance. -/
theorem yaw_uses_base_acceleration (m : Machine) (input : Keys) (v : Vec3)
    (dt : ℚ) :
    (tick m input v dt).yaw =
      (if input.left then [4 * dt * (1/4 : ℚ)] else []) ++
        (if input.right then [4 * (-1) * dt * (1/4 : ℚ)] else []) ∧
    (tick m { input with shift := true } v dt).yaw = (tick m input v dt).yaw ∧
    effectiveAcceleration input (some .dance) = ⟨0, 0, 0⟩ ∧
    (∀ a : Option STATES,
      (effectiveAcceleration { input with shift := true } a).z =
        2 * (effectiveAcceleration { input with shift := false } a).z) := by
  refine ⟨?_, ?_, ?_, ?_⟩
  · simp [tick, acceleration]
  · simp [tick]
  · simp [effectiveAcceleration, mul_zero]
  · intro a
    by_cases ha : a = some STATES.dance <;>
      simp [effectiveAcceleration, ha, acceleration, mul_zero, mul_comm]

/-- Concatenating traces adds their hook counts. -/
theorem netActive_append (l1 l2 : List HookEvent) :
    netActive (l1 ++ l2) = netActive l1 + netActive l2 := by
  simp [netActive]

/-- A left factor of a one-element list is empty or the whole list. -/
theorem append_eq_singleton_cases {α : Type} {pre suf : List α} {a : α}
    (h : pre ++ suf = [a]) : pre = [] ∨ pre = [a] := by
  cases pre with
  | nil => exact Or.inl rfl
  | cons x xs =>
      simp only [List.cons_append, List.cons.injEq] at h
      obtain ⟨rfl, h2⟩ := h
      obtain ⟨rfl, -⟩ := List.append_eq_nil.mp h2
      exact Or.inr rfl

/-- A left factor of a two-element list is empty, the head, or the whole
list. -/
theorem append_eq_pair_cases {α : Type} {pre suf : List α} {a b : α}
    (h : pre ++ suf = [a, b]) : pre = [] ∨ pre = [a] ∨ pre = [a, b] := by
  cases pre with
  | nil => exact Or.inl rfl
  | cons x xs =>
      simp only [List.cons_append, List.cons.injEq] at h
      obtain ⟨rfl, h2⟩ := h
      rcases append_eq_singleton_cases h2 with h3 | h3 <;> subst h3
      · exact Or.inr (Or.inl rfl)
      · exact Or.inr (Or.inr rfl)

/-- The four shapes one SetState call can take: guarded no-op, first-ever
enter, exit followed by a failed construction, or exit followed by enter. -/
theorem setState_shape (m : Machine) (n : STATES) :
    ((FiniteStateMachine.SetState m n).events = [] ∧
      (FiniteStateMachine.SetState m n).machine.currentState = m.currentState) ∨
    (∃ st, (FiniteStateMachine.SetState m n).events = [HookEvent.enter st none] ∧
      m.currentState = none ∧
      (FiniteStateMachine.SetState m n).machine.currentState = some st) ∨
    (∃ p, (FiniteStateMachine.SetState m n).events = [HookEvent.exit p] ∧
      m.currentState = some p ∧
      (FiniteStateMachine.SetState m n).machine.currentState = some p) ∨
    (∃ p st, (FiniteStateMachine.SetState m n).events =
        [HookEvent.exit p, HookEvent.enter st (some p)] ∧
      m.currentState = some p ∧
      (FiniteStateMachine.SetState m n).machine.currentState = some st) := by
  rcases hc : m.currentState with _ | p
  · rcases hs : m.states n with _ | c
    · exact Or.inl (by simp [FiniteStateMachine.SetState, hc, hs])
    · refine Or.inr (Or.inl ⟨⟨c, m.nextId⟩, ?_, rfl, ?_⟩) <;>
        simp [FiniteStateMachine.SetState, hc, hs, State.Enter_currentState]
  · by_cases hn : p.name = n
    · exact Or.inl (by simp [FiniteStateMachine.SetState, hc, hn])
    · rcases hs : m.states n with _ | c
      · refine Or.inr (Or.inr (Or.inl ⟨p, ?_, rfl, ?_⟩)) <;>
          simp [FiniteStateMachine.SetState, hc, hn, State.Exit_states, hs,
            State.Exit_currentState]
      · refine Or.inr (Or.inr (Or.inr
          ⟨p, ⟨c, (State.Exit p.cls m).nextId⟩, ?_, rfl, ?_⟩)) <;>
          simp [FiniteStateMachine.SetState, hc, hn, State.Exit_states, hs,
            State.Enter_currentState]

/-- Within one SetState call, every partial trace keeps the number of entered
and not yet exited states at most one, and the final count is bounded by
whether the machine still holds an active state. -/
theorem setState_net (m : Machine) (n : STATES) :
    (∀ pre suf, pre ++ suf = (FiniteStateMachine.SetState m n).events →
      startLevel m + netActive pre ≤ 1) ∧
    startLevel m + netActive (FiniteStateMachine.SetState m n).events ≤
      startLevel (FiniteStateMachine.SetState m n).machine := by
  rcases setState_shape m n with ⟨he, hcur⟩ | ⟨st, he, hc0, hcur⟩ |
    ⟨p, he, hc0, hcur⟩ | ⟨p, st, he, hc0, hcur⟩
  · constructor
    · intro pre suf h
      rw [he] at h
      obtain ⟨rfl, -⟩ := List.append_eq_nil.mp h
      simp [startLevel, netActive]
      split <;> norm_num
    · rw [he]
      simp [startLevel, hcur, netActive]
  · constructor
    · intro pre suf h
      rw [he] at h
      rcases append_eq_singleton_cases h with rfl | rfl <;>
        simp [startLevel, netActive, hc0, hookDelta]
    · rw [he]
      simp [startLevel, hcur, netActive, hc0, hookDelta]
  · constructor
    · intro pre suf h
      rw [he] at h
      rcases append_eq_singleton_cases h with rfl | rfl <;>
        simp [startLevel, netActive, hc0, hookDelta]
    · rw [he]
      simp [startLevel, hcur, netActive, hc0, hookDelta]
  · constructor
    · intro pre suf h
      rw [he] at h
      rcases append_eq_pair_cases h with rfl | rfl | rfl <;>
        simp [startLevel, netActive, hc0, hookDelta]
    · rw [he]
      simp [startLevel, hcur, netActive, hc0, hookDelta]

/-- Across any sequence of SetState calls, every partial trace keeps the
entered-not-exited count at most one. -/
theorem runCalls_net (names : List STATES) : ∀ m : Machine,
    (∀ pre suf, pre ++ suf = (runCalls m names).2 →
      startLevel m + netActive pre ≤ 1) ∧
    startLevel m + netActive (runCalls m names).2 ≤
      startLevel (runCalls m names).1 := by
  induction names with
  | nil =>
      intro m
      constructor
      · intro pre suf h
        simp only [runCalls] at h
        obtain ⟨rfl, -⟩ := List.append_eq_nil.mp h
        simp [startLevel, netActive]
        split <;> norm_num
      · simp [runCalls, netActive]
  | cons nm rest ih =>
      intro m
      have hs := setState_net m nm
      have hr := ih (FiniteStateMachine.SetState m nm).machine
      have hrest : (runCalls m (nm :: rest)).2 =
          (FiniteStateMachine.SetState m nm).events ++
            (runCalls (FiniteStateMachine.SetState m nm).machine rest).2 := rfl
      have hfst : (runCalls m (nm :: rest)).1 =
          (runCalls (FiniteStateMachine.SetState m nm).machine rest).1 := rfl
      constructor
      · intro pre suf h
        rw [hrest] at h
        rcases List.append_eq_append_iff.mp h with ⟨a2, ha1, _⟩ | ⟨c2, hc1, hc2⟩
        · exact hs.1 pre a2 ha1.symm
        · subst hc1
          have h1 := hr.1 c2 suf hc2.symm
          have h2 := hs.2
          rw [netActive_append]
          linarith
      · rw [hrest, hfst, netActive_append]
        have h1 := hs.2
        have h2 := hr.2
        linarith

/-- Claim C1: across every sequence of SetState calls on a freshly built
CharacterFSM, every partial hook trace has at most one state entered and not
yet exited; and whenever an active state is replaced by a different name whose
constructor is registered, the call's hook trace is exactly the outgoing
instance's Exit followed by the incoming instance's Enter, which receives the
exited instance as its previous-state argument (world.ts lines 154-171). -/
theorem fsm_single_active_exit_before_enter :
    (∀ (anims0 : STATES → AnimAction) (names : List STATES)
      (pre suf : List HookEvent),
      pre ++ suf = (runCalls (initialMachine anims0) names).2 →
      netActive pre ≤ 1) ∧
    (∀ (m : Machine) (p : StateObj) (n : STATES) (c : StateClass),
      m.currentState = some p → p.name ≠ n → m.states n = some c →
      ∃ q : StateObj, q.cls = c ∧
        (FiniteStateMachine.SetState m n).events =
          [HookEvent.exit p, HookEvent.enter q (some p)] ∧
        (FiniteStateMachine.SetState m n).machine.currentState = some q) := by
  constructor
  · intro anims0 names pre suf h
    have hb := (runCalls_net names (initialMachine anims0)).1 pre suf h
    simpa [startLevel, initialMachine] using hb
  · intro m p n c hcur hne hreg
    refine ⟨⟨c, (State.Exit p.cls m).nextId⟩, rfl, ?_, ?_⟩
    · simp [FiniteStateMachine.SetState, hcur, hne, State.Exit_states, hreg]
    · simp [FiniteStateMachine.SetState, hcur, hne, State.Exit_states, hreg,
        State.Enter_currentState]

/-- Witness for fsm_single_active_exit_before_enter: the two-call sequence
idle then walking from the fresh machine, and the concrete idle-to-walking
replacement. -/
theorem fsm_single_active_exit_before_enter_witness :
    netActive [HookEvent.enter ⟨.idleC, 0⟩ none, HookEvent.exit ⟨.idleC, 0⟩,
      HookEvent.enter ⟨.walkC, 1⟩ (some ⟨.idleC, 0⟩)] ≤ 1 ∧
    (∃ q : StateObj, q.cls = .walkC ∧
      (FiniteStateMachine.SetState loadedMachine .walking).events =
        [HookEvent.exit ⟨.idleC, 0⟩, HookEvent.enter q (some ⟨.idleC, 0⟩)] ∧
      (FiniteStateMachine.SetState loadedMachine .walking).machine.currentState =
        some q) :=
  ⟨fsm_single_active_exit_before_enter.1 sampleAnims [.idle, .walking]
      [HookEvent.enter ⟨.idleC, 0⟩ none, HookEvent.exit ⟨.idleC, 0⟩,
        HookEvent.enter ⟨.walkC, 1⟩ (some ⟨.idleC, 0⟩)] [] (by decide),
    fsm_single_active_exit_before_enter.2 loadedMachine ⟨.idleC, 0⟩ .walking
      .walkC rfl (by decide) rfl⟩

end WorldFSM
